import Mathlib

/-!
Shallow embedding of `src/proton_eml_organizer.py` (Proton Mail EML organizer).

Pure string functions of the script are translated directly; the filesystem-facing
parts (`load_labels_mapping`, `get_email_labels`, `_generate_unique_filename`,
`organize_emails`, `main`) are embedded by making their inputs explicit: the outcome
of locating/JSON-parsing each file becomes an inductive value, the directory contents
consulted for collision checks become explicit lists of path components, and the
orchestrator's traversal becomes a fold over an explicit list of message records.
Line references in doc comments point into `src/proton_eml_organizer.py`.
-/

namespace ProtonEmlOrganizer

/-- Constant `LABEL_TYPE_TAG = 1` (line 26). -/
def LABEL_TYPE_TAG : Int := 1

/-- Constant `LABEL_TYPE_FOLDER = 3` (line 27). -/
def LABEL_TYPE_FOLDER : Int := 3

/-- The character class `[<>:"/\\|?*]` of the `re.sub` in `sanitize_folder_name`
(line 38). -/
def isInvalidChar (c : Char) : Bool :=
  c == '<' || c == '>' || c == ':' || c == '"' || c == '/' || c == '\\' ||
    c == '|' || c == '?' || c == '*'

/-- The strip set `'. '` of `name.strip('. ')` (line 40). -/
def isStripChar (c : Char) : Bool :=
  c == '.' || c == ' '

/-- `re.sub(r'[<>:"/\\|?*]', '_', name)` (line 38): every character of the class is
replaced by `_`; all other characters are kept. -/
def replaceInvalidChars (s : String) : String :=
  String.mk (s.data.map (fun c => if isInvalidChar c then '_' else c))

/-- `name.strip('. ')` (line 40): remove leading and trailing characters belonging to
the set `{'.', ' '}`. -/
def stripDotsSpaces (s : String) : String :=
  String.mk (((s.data.dropWhile isStripChar).reverse.dropWhile isStripChar).reverse)

/-- `sanitize_folder_name` (lines 33-44). -/
def sanitize_folder_name (name : String) : String :=
  let stripped := stripDotsSpaces (replaceInvalidChars name)
  if stripped = "" then "Unknown" else stripped

/-- Python `str.isdigit`: true iff the string is non-empty and every character is a
digit. Modelled over the decimal digits `0`-`9`, which is the relevant case for the
ASCII label identifiers this program handles. -/
def str_isdigit (s : String) : Bool :=
  !s.isEmpty && s.data.all Char.isDigit

/-- `is_system_folder` (lines 113-117): `label_id.isdigit()`. A pure function of the
identifier string alone; it does not consult the catalog. -/
def is_system_folder (label_id : String) : Bool :=
  str_isdigit label_id

/-- One value of the in-memory mapping: `{'name': ..., 'type': ...}` (lines 68-71). -/
structure LabelInfo where
  name : String
  type : Int
deriving DecidableEq

/-- The Python dict `mapping` from label ID to `LabelInfo`, modelled as an association
list kept in insertion order with unique keys: assignment to an existing key updates it
in place, assignment to a new key appends. -/
abbrev LabelsMapping := List (String × LabelInfo)

/-- Python dict assignment `mapping[k] = v`. -/
def dictInsert (m : LabelsMapping) (k : String) (v : LabelInfo) : LabelsMapping :=
  if m.any (fun p => p.1 == k) then m.map (fun p => if p.1 == k then (k, v) else p)
  else m ++ [(k, v)]

/-- Python dict lookup `m[k]` / `k in m` combined: `none` when the key is absent. -/
def dictFind (m : LabelsMapping) (k : String) : Option LabelInfo :=
  (m.find? (fun p => p.1 == k)).map Prod.snd

/-- One entry of the `Payload` array of `labels.json`; each of the three keys `ID`,
`Name`, `Type` may be absent (the `if 'ID' in label and 'Name' in label and 'Type' in
label` check of line 67). -/
structure RawLabel where
  id : Option String
  name : Option String
  type : Option Int
deriving DecidableEq

/-- Outcome of locating and JSON-parsing `labels.json` (lines 51-77): the file may be
missing, unparseable, parse to something without a `Payload` list, or yield a list of
(possibly incomplete) entries. -/
inductive LabelsData
  | notFound
  | parseError
  | wrongShape
  | payload (entries : List RawLabel)

/-- The completeness test of line 67: all of `ID`, `Name`, `Type` present. -/
def isCompleteEntry (e : RawLabel) : Bool :=
  e.id.isSome && e.name.isSome && e.type.isSome

/-- Body of the `for label in labels_data['Payload']` loop (lines 66-73): a complete
entry is stored (display name sanitized at load time), an incomplete one is skipped
with a warning. -/
def insertEntry (m : LabelsMapping) (e : RawLabel) : LabelsMapping :=
  match e.id, e.name, e.type with
  | some i, some n, some t => dictInsert m i { name := sanitize_folder_name n, type := t }
  | _, _, _ => m

/-- The mapping built by the loop of lines 62-73, starting from the empty dict. -/
def buildMapping (entries : List RawLabel) : LabelsMapping :=
  entries.foldl insertEntry []

/-- `load_labels_mapping` (lines 47-110): `none` models every `return None` path
(missing file, JSON error, wrong shape, zero valid entries). -/
def load_labels_mapping (d : LabelsData) : Option LabelsMapping :=
  match d with
  | .notFound => none
  | .parseError => none
  | .wrongShape => none
  | .payload entries =>
      let mapping := buildMapping entries
      if mapping = [] then none else some mapping

/-- `_categorize_labels` (lines 129-160). The Python loop walks `label_ids` in order
and appends to one of five lists; here the head's contribution is prepended to the
buckets computed for the tail, which yields the same five lists. Identifiers are taken
already coerced to their string form (`str(label_id)`, line 138). -/
def _categorize_labels (label_ids : List String) (m : LabelsMapping) :
    List String × List String × List String × List String × List String :=
  match label_ids with
  | [] => ([], [], [], [], [])
  | label_id :: rest =>
    match _categorize_labels rest m with
    | (uf, sf, ut, st, un) =>
      match dictFind m label_id with
      | some info =>
          if info.type = LABEL_TYPE_FOLDER then
            if is_system_folder label_id then (uf, info.name :: sf, ut, st, un)
            else (info.name :: uf, sf, ut, st, un)
          else if info.type = LABEL_TYPE_TAG then
            if is_system_folder label_id then (uf, sf, ut, info.name :: st, un)
            else (uf, sf, info.name :: ut, st, un)
          else (uf, sf, ut, st, (info.name ++ "_type" ++ info.type.repr) :: un)
      | none => (uf, sf, ut, st, ("Unknown_Label_" ++ label_id) :: un)

/-- `_select_target_folder` (lines 163-193): strict priority, first element wins. -/
def _select_target_folder
    (user_folders system_folders user_tags system_tags unknown : List String) : String :=
  match user_folders with
  | chosen :: _ => chosen
  | [] =>
    match system_folders with
    | chosen :: _ => chosen
    | [] =>
      match user_tags ++ system_tags with
      | chosen :: _ => chosen
      | [] =>
        match unknown with
        | chosen :: _ => chosen
        | [] => "Unlabeled"

/-- The JSON shape consulted by `_extract_label_ids_from_email` (lines 120-126): a
`LabelIDs` list may sit under `Payload` or at top level; either may be absent. -/
structure EmailJson where
  payloadLabelIds : Option (List String)
  topLabelIds : Option (List String)
deriving DecidableEq

/-- Outcome of opening and JSON-parsing one `*.metadata.json` file (lines 201-224):
`decodeError` models `json.JSONDecodeError`, `otherError` any other exception raised
while processing, `ok` a successful parse. -/
inductive EmailFile
  | decodeError
  | otherError
  | ok (data : EmailJson)
deriving DecidableEq

/-- `_extract_label_ids_from_email` (lines 120-126). -/
def _extract_label_ids_from_email (d : EmailJson) : Option (List String) :=
  match d.payloadLabelIds with
  | some ids => some ids
  | none => d.topLabelIds

/-- `get_email_labels` (lines 196-224): always a one-element list. `if not label_ids`
(line 206) is true for both a missing list and an empty one. -/
def get_email_labels (f : EmailFile) (m : LabelsMapping) : List String :=
  match f with
  | .decodeError => ["Invalid_JSON"]
  | .otherError => ["Error"]
  | .ok d =>
    match _extract_label_ids_from_email d with
    | none => ["Unlabeled"]
    | some [] => ["Unlabeled"]
    | some (i :: rest) =>
      match _categorize_labels (i :: rest) m with
      | (uf, sf, ut, st, un) => [_select_target_folder uf sf ut st un]

/-- Python `pathlib.PurePath.stem`: the file name minus its last suffix. A suffix
exists iff the last `.` of the name sits at an index `i` with `0 < i < len - 1`. -/
def pathStem (s : String) : String :=
  match s.data.reverse.dropWhile (fun c => c != '.') with
  | '.' :: rest =>
      if (s.data.reverse.takeWhile (fun c => c != '.')).isEmpty || rest.isEmpty then s
      else String.mk rest.reverse
  | _ => s

/-- The candidate name `f"{stem}_{counter}.eml"` of line 276. The suffix `.eml` is
hard-coded in the source, whatever the original extension was. -/
def candidateName (stem : String) (counter : Nat) : String :=
  stem ++ "_" ++ Nat.repr counter ++ ".eml"

/-- The `while target_eml.exists()` loop of lines 273-277, with the directory contents
`existing` fixed for the whole resolution (the loop itself writes nothing). The Python
loop is unbounded; here it carries fuel, and `fuel = existing.length + 1` is proven
sufficient below (`genUniqueAux_spec`), so the fallback arm is never the result. -/
def genUniqueAux (existing : List String) (stem : String) : Nat → Nat → String
  | counter, 0 => candidateName stem counter
  | counter, fuel + 1 =>
      if candidateName stem counter ∈ existing then
        genUniqueAux existing stem (counter + 1) fuel
      else candidateName stem counter

/-- `_generate_unique_filename` (lines 270-278), with the target directory contents
made explicit as the list `existing` of file names already present there. -/
def _generate_unique_filename (existing : List String) (name : String) : String :=
  if name ∈ existing then genUniqueAux existing (pathStem name) 1 (existing.length + 1)
  else name

/-- One message record of the run: the derived EML file name (line 264-267), whether
that EML file exists (line 358), the outcome of parsing its metadata file, and whether
`shutil.copy2` would succeed for it (line 289). -/
structure Message where
  name : String
  emlExists : Bool
  content : EmailFile
  copyOk : Bool
deriving DecidableEq

/-- The state visible to `organize_emails` at start: export directory existence, the
`labels.json` outcome, whether `organized_emails` already exists and the
`(folder, file)` pairs already under it, and the discovered message records in
traversal order. -/
structure World where
  exportExists : Bool
  labelsData : LabelsData
  organizedExists : Bool
  organizedFiles : List (String × String)
  messages : List Message

/-- Running state of the `for metadata_file in metadata_files` loop (lines 351-387):
counters, the files now under `organized_emails` as `(folder, file)` pairs, and every
destination resolved so far in order. -/
structure LoopState where
  processed : Nat
  errors : Nat
  fs : List (String × String)
  placements : List (String × String)
deriving DecidableEq

/-- The file names currently in one target folder, as consulted by the
`target_eml.exists()` checks. -/
def filesInFolder (fs : List (String × String)) (folder : String) : List String :=
  (fs.filter (fun p => p.1 == folder)).map Prod.snd

/-- The destination chosen for one message (lines 364-376): classify, take element
`[0]` of the one-element folder list (line 366), and resolve a collision-free file
name in that folder. -/
def resolvedPlacement (m : LabelsMapping) (st : LoopState) (msg : Message) :
    String × String :=
  let target_folder := (get_email_labels msg.content m).headD ""
  (target_folder, _generate_unique_filename (filesInFolder st.fs target_folder) msg.name)

/-- One iteration of the loop of lines 354-383: skip with an error when the EML file is
missing; otherwise resolve the placement and copy (counting success or copy failure).
In dry-run mode `_copy_email_file` returns `True` without copying, so the filesystem
is unchanged but the message counts as processed. -/
def processMessage (dry_run : Bool) (m : LabelsMapping) (st : LoopState) (msg : Message) :
    LoopState :=
  if !msg.emlExists then { st with errors := st.errors + 1 }
  else
    let placement := resolvedPlacement m st msg
    if dry_run then
      { st with processed := st.processed + 1, placements := st.placements ++ [placement] }
    else if msg.copyOk then
      { st with
          processed := st.processed + 1
          placements := st.placements ++ [placement]
          fs := st.fs ++ [placement] }
    else
      { st with errors := st.errors + 1, placements := st.placements ++ [placement] }

/-- The whole message loop of lines 354-387. -/
def runLoop (dry_run : Bool) (m : LabelsMapping) (st : LoopState) :
    List Message → LoopState
  | [] => st
  | msg :: rest => runLoop dry_run m (processMessage dry_run m st msg) rest

/-- Observable outcome of `organize_emails`: its boolean return value, the final
counters, every resolved destination, and whether `organized_emails` exists when the
call returns. -/
structure RunResult where
  success : Bool
  processed : Nat
  errors : Nat
  placements : List (String × String)
  organizedExistsAfter : Bool
deriving DecidableEq

/-- `organize_emails` (lines 323-398): validate the export directory, load the label
mapping, set up the output directory (`_setup_output_directory`, lines 235-253: refuse
when it pre-exists unless in dry-run; otherwise create it), require at least one
metadata file, then run the message loop and report success. -/
def organize_emails (w : World) (dry_run : Bool) : RunResult :=
  if !w.exportExists then ⟨false, 0, 0, [], w.organizedExists⟩
  else
    match load_labels_mapping w.labelsData with
    | none => ⟨false, 0, 0, [], w.organizedExists⟩
    | some m =>
      if w.organizedExists && !dry_run then ⟨false, 0, 0, [], w.organizedExists⟩
      else
        let orgAfter := if dry_run then w.organizedExists else true
        if w.messages.isEmpty then ⟨false, 0, 0, [], orgAfter⟩
        else
          let final := runLoop dry_run m ⟨0, 0, w.organizedFiles, []⟩ w.messages
          ⟨true, final.processed, final.errors, final.placements, orgAfter⟩

/-- Exit code of `main` (lines 466-473): `sys.exit(1)` when `organize_emails` returns
`False`, normal exit otherwise. -/
def mainExitCode (w : World) (dry_run : Bool) : Nat :=
  if (organize_emails w dry_run).success then 0 else 1

/-- The five bucket labels of the classification. -/
inductive Bucket
  | userFolder
  | systemFolder
  | userTag
  | systemTag
  | unrecognized
deriving DecidableEq

/-- Modelled from the spec, §4.3: the bucket one identifier falls into, as a function
of that identifier and the catalog alone. Used to state the refinement claim C2
against `_categorize_labels`. -/
def specBucket (m : LabelsMapping) (label_id : String) : Bucket :=
  match dictFind m label_id with
  | some info =>
      if info.type = LABEL_TYPE_FOLDER then
        if is_system_folder label_id then .systemFolder else .userFolder
      else if info.type = LABEL_TYPE_TAG then
        if is_system_folder label_id then .systemTag else .userTag
      else .unrecognized
  | none => .unrecognized

/-- Modelled from the spec, §4.3: the single name one identifier contributes to its
bucket. -/
def specName (m : LabelsMapping) (label_id : String) : String :=
  match dictFind m label_id with
  | some info =>
      if info.type = LABEL_TYPE_FOLDER then info.name
      else if info.type = LABEL_TYPE_TAG then info.name
      else info.name ++ "_type" ++ info.type.repr
  | none => "Unknown_Label_" ++ label_id

/-- The names, in input order, of the identifiers falling into bucket `b`. -/
def bucketNames (m : LabelsMapping) (ids : List String) (b : Bucket) : List String :=
  (ids.filter (fun i => decide (specBucket m i = b))).map (specName m)

/-- Decimal digit list of a natural number, most significant digit first. Reference
function used to reason about `Nat.repr` (the rendering of `counter` in
`candidateName`). -/
def natDigs (n : Nat) : List Char :=
  if _h : n < 10 then [Nat.digitChar n]
  else natDigs (n / 10) ++ [Nat.digitChar (n % 10)]
termination_by n
decreasing_by exact Nat.div_lt_self (by omega) (by omega)

/-- Value of a decimal digit list, most significant digit first. -/
def val10 (l : List Char) : Nat :=
  l.foldl (fun a c => 10 * a + (c.toNat - 48)) 0

/-- Concrete world used for the preview-mode collision counterexample (claim C6):
dry-run with a pre-existing `organized_emails` already holding `F/a.eml`, and two
source files `a.eml` and `a_1.eml` both labelled into folder `F`. -/
def previewWorld : World where
  exportExists := true
  labelsData := .payload [⟨some "id1", some "F", some 3⟩]
  organizedExists := true
  organizedFiles := [("F", "a.eml")]
  messages :=
    [⟨"a.eml", true, .ok ⟨some ["id1"], none⟩, true⟩,
     ⟨"a_1.eml", true, .ok ⟨some ["id1"], none⟩, true⟩]

/-- Concrete world used for the unparseable-metadata counterexample (claim C3): one
message whose metadata file is not valid JSON, with its EML file present. -/
def invalidJsonWorld : World where
  exportExists := true
  labelsData := .payload [⟨some "1", some "Inbox", some 3⟩]
  organizedExists := false
  organizedFiles := []
  messages := [⟨"a.eml", true, .decodeError, true⟩]

/-- The two-sided strip of `stripDotsSpaces`, on character lists. -/
def stripBoth (p : Char → Bool) (l : List Char) : List Char :=
  ((l.dropWhile p).reverse.dropWhile p).reverse

/-- The candidate names `candidateName stem counter`, …,
`candidateName stem (counter + fuel - 1)` probed by `genUniqueAux`. -/
def candsFrom (stem : String) (counter fuel : Nat) : List String :=
  (List.range fuel).map (fun i => candidateName stem (counter + i))

/-! ## Theorems -/

/-- Helper: the selector's result is one of the bucket elements or the literal
`"Unlabeled"`, so it is non-empty whenever all bucket elements are. -/
theorem select_ne_empty_of (uf sf ut st un : List String)
    (h : ∀ x ∈ uf ++ sf ++ ut ++ st ++ un, x ≠ "") :
    _select_target_folder uf sf ut st un ≠ "" := by
  cases uf with
  | cons a t => exact h a (by simp)
  | nil =>
    cases sf with
    | cons a t => exact h a (by simp)
    | nil =>
      cases ut with
      | cons a t => exact h a (by simp)
      | nil =>
        cases st with
        | cons a t => exact h a (by simp)
        | nil =>
          cases un with
          | cons a t => exact h a (by simp)
          | nil => simp [_select_target_folder]

/-- C4: for every identifier string, `is_system_folder` (the origin-is-`System` test)
is true iff the string is non-empty and all its characters are decimal digits; the
empty string is not a system identifier. The definition takes only the identifier,
so the result is independent of the catalog. -/
theorem c4_origin_system_iff :
    (∀ s : String, is_system_folder s = true ↔ s ≠ "" ∧ ∀ c ∈ s.data, c.isDigit = true) ∧
    is_system_folder "" = false := by
  refine ⟨fun s => ?_, by decide⟩
  simp only [is_system_folder, str_isdigit, Bool.and_eq_true, Bool.not_eq_true',
    List.all_eq_true]
  constructor
  · rintro ⟨h1, h2⟩
    refine ⟨fun hs => ?_, h2⟩
    subst hs
    exact absurd h1 (by decide)
  · rintro ⟨h1, h2⟩
    refine ⟨?_, h2⟩
    cases h : s.isEmpty
    · rfl
    · exact absurd ((String.isEmpty_iff s).mp h) h1

/-- C1: `_select_target_folder` follows the strict priority user folders > system
folders > (user tags ++ system tags) > unrecognized > `"Unlabeled"`, always taking
the first element of the winning bucket, and its result is non-empty whenever the
bucket entries are non-empty names (as all names produced by the classifier are). -/
theorem c1_select_priority :
    (∀ (a : String) (uf sf ut st un : List String),
        _select_target_folder (a :: uf) sf ut st un = a) ∧
    (∀ (a : String) (sf ut st un : List String),
        _select_target_folder [] (a :: sf) ut st un = a) ∧
    (∀ (a : String) (ut st un : List String),
        _select_target_folder [] [] (a :: ut) st un = a) ∧
    (∀ (a : String) (st un : List String),
        _select_target_folder [] [] [] (a :: st) un = a) ∧
    (∀ (a : String) (un : List String),
        _select_target_folder [] [] [] [] (a :: un) = a) ∧
    (_select_target_folder [] [] [] [] [] = "Unlabeled") ∧
    (∀ uf sf ut st un : List String, (∀ x ∈ uf ++ sf ++ ut ++ st ++ un, x ≠ "") →
        _select_target_folder uf sf ut st un ≠ "") := by
  exact ⟨fun a uf sf ut st un => rfl, fun a sf ut st un => rfl, fun a ut st un => rfl,
    fun a st un => rfl, fun a un => rfl, rfl, select_ne_empty_of⟩

/-- Witness for C1 at concrete buckets. -/
theorem c1_select_priority_witness :
    _select_target_folder ["Personal", "Work"] ["Inbox"] [] [] [] = "Personal" ∧
    _select_target_folder ["Personal"] ["Inbox"] [] [] [] ≠ "" :=
  ⟨c1_select_priority.1 "Personal" ["Work"] ["Inbox"] [] [] [],
   c1_select_priority.2.2.2.2.2.2 ["Personal"] ["Inbox"] [] [] [] (by decide)⟩

/-- Helper: an incomplete entry contributes nothing to the mapping. -/
theorem insertEntry_incomplete {e : RawLabel} (h : isCompleteEntry e = false)
    (m : LabelsMapping) : insertEntry m e = m := by
  rcases e with ⟨i, n, t⟩
  cases i <;> cases n <;> cases t <;> simp_all [isCompleteEntry, insertEntry]

/-- Helper: the load loop is insensitive to incomplete entries. -/
theorem foldl_insertEntry_filter :
    ∀ (es : List RawLabel) (acc : LabelsMapping),
      es.foldl insertEntry acc = (es.filter isCompleteEntry).foldl insertEntry acc := by
  intro es
  induction es with
  | nil => intro acc; rfl
  | cons e rest ih =>
    intro acc
    cases h : isCompleteEntry e with
    | true => simp [List.filter_cons, h, List.foldl_cons, ih]
    | false => simp [List.filter_cons, h, List.foldl_cons, ih, insertEntry_incomplete h]

/-- Helper: a dict assignment never shrinks the mapping. -/
theorem insertEntry_length (m : LabelsMapping) (e : RawLabel) :
    m.length ≤ (insertEntry m e).length := by
  rcases e with ⟨i, n, t⟩
  cases i <;> cases n <;> cases t <;> simp [insertEntry, dictInsert] <;> split <;> simp

/-- Helper: the load loop never shrinks the mapping. -/
theorem foldl_insertEntry_length :
    ∀ (es : List RawLabel) (acc : LabelsMapping),
      acc.length ≤ (es.foldl insertEntry acc).length := by
  intro es
  induction es with
  | nil => intro _; exact Nat.le_refl _
  | cons e rest ih =>
    intro acc
    exact Nat.le_trans (insertEntry_length acc e) (ih (insertEntry acc e))

/-- C9: the catalog load drops exactly the entries missing `ID`, `Name` or `Type`
(the mapping equals the one built from the complete entries alone), such entries
never abort the load (the load fails only when zero complete entries remain), and
the three-entry example yields exactly the two entries keyed `"1"` and `"3"`. -/
theorem c9_load_skips_incomplete :
    (∀ entries : List RawLabel,
        buildMapping entries = buildMapping (entries.filter isCompleteEntry)) ∧
    (∀ entries : List RawLabel,
        load_labels_mapping (.payload entries) = none ↔
          entries.filter isCompleteEntry = []) ∧
    load_labels_mapping (.payload
        [⟨some "1", some "Inbox", some 3⟩,
         ⟨some "2", some "Incomplete", none⟩,
         ⟨some "3", some "Valid", some 1⟩]) =
      some [("1", ⟨"Inbox", 3⟩), ("3", ⟨"Valid", 1⟩)] := by
  have hbuild : ∀ entries : List RawLabel,
      buildMapping entries = buildMapping (entries.filter isCompleteEntry) := by
    intro entries
    unfold buildMapping
    exact foldl_insertEntry_filter entries []
  refine ⟨hbuild, fun entries => ?_, by decide⟩
  constructor
  · intro h
    by_contra hne
    rcases hc : entries.filter isCompleteEntry with _ | ⟨e, rest⟩
    · exact hne hc
    · have h1 : buildMapping entries = (e :: rest).foldl insertEntry [] := by
        rw [hbuild, hc]; rfl
      have h2 : 1 ≤ (buildMapping entries).length := by
        rw [h1, List.foldl_cons]
        refine Nat.le_trans ?_ (foldl_insertEntry_length rest (insertEntry [] e))
        have he : isCompleteEntry e = true := List.of_mem_filter (l := entries) (by rw [hc]; simp)
        rcases e with ⟨i, n, t⟩
        cases i <;> cases n <;> cases t <;> simp_all [isCompleteEntry, insertEntry, dictInsert]
      simp only [load_labels_mapping] at h
      split at h
      · rename_i hmap
        rw [hmap] at h2
        simp at h2
      · exact absurd h (by simp)
  · intro h
    have : buildMapping entries = [] := by rw [hbuild, h]; rfl
    simp [load_labels_mapping, this]

/-- Helper: the head of a non-empty `dropWhile` result fails the predicate. -/
theorem dropWhile_eq_cons_head_false {α} (p : α → Bool) {l : List α} {a : α} {t : List α}
    (h : l.dropWhile p = a :: t) : p a = false := by
  induction l with
  | nil => simp at h
  | cons x xs ih =>
    rw [List.dropWhile_cons] at h
    split at h
    · exact ih h
    · rename_i hx
      injection h with h1 _
      subst h1
      exact Bool.of_not_eq_true hx

/-- Helper: `dropWhile` is idempotent. -/
theorem dropWhile_dropWhile {α} (p : α → Bool) (l : List α) :
    (l.dropWhile p).dropWhile p = l.dropWhile p := by
  cases h : l.dropWhile p with
  | nil => rfl
  | cons a t =>
    rw [List.dropWhile_cons, dropWhile_eq_cons_head_false p h]
    simp

/-- Helper: dropping trailing characters leaves a prefix. -/
theorem eq_stripBack_append {α} (p : α → Bool) (m : List α) :
    m = ((m.reverse.dropWhile p).reverse) ++ (m.reverse.takeWhile p).reverse := by
  conv_lhs =>
    rw [← m.reverse_reverse, ← List.takeWhile_append_dropWhile (p := p) (l := m.reverse)]
  rw [List.reverse_append]

/-- Helper: a front-`dropWhile` is a no-op on an already stripped list. -/
theorem dropWhile_stripBoth (p : Char → Bool) (l : List Char) :
    (stripBoth p l).dropWhile p = stripBoth p l := by
  unfold stripBoth
  cases hs : ((l.dropWhile p).reverse.dropWhile p).reverse with
  | nil => rfl
  | cons a t =>
    have hpre := eq_stripBack_append p (l.dropWhile p)
    rw [hs] at hpre
    have hhead : l.dropWhile p = a :: (t ++ ((l.dropWhile p).reverse.takeWhile p).reverse) :=
      hpre.trans (List.cons_append a t _)
    have ha : p a = false := dropWhile_eq_cons_head_false p hhead
    rw [List.dropWhile_cons, ha]
    simp

/-- Helper: `stripBoth` is idempotent. -/
theorem stripBoth_stripBoth (p : Char → Bool) (l : List Char) :
    stripBoth p (stripBoth p l) = stripBoth p l := by
  have h1 : (stripBoth p l).dropWhile p = stripBoth p l := dropWhile_stripBoth p l
  rw [stripBoth, h1, stripBoth, List.reverse_reverse, dropWhile_dropWhile]

/-- Helper: every character of `stripBoth p l` is a character of `l`. -/
theorem mem_of_mem_stripBoth {p : Char → Bool} {l : List Char} {c : Char}
    (h : c ∈ stripBoth p l) : c ∈ l := by
  unfold stripBoth at h
  rw [List.mem_reverse] at h
  have h2 : c ∈ (l.dropWhile p).reverse := (List.dropWhile_sublist (p := p)).subset h
  rw [List.mem_reverse] at h2
  exact (List.dropWhile_sublist (p := p)).subset h2

/-- Helper: after replacement no character of the invalid class remains. -/
theorem replaceInvalidChars_no_invalid (s : String) :
    ∀ c ∈ (replaceInvalidChars s).data, isInvalidChar c = false := by
  intro c hc
  simp only [replaceInvalidChars, List.mem_map] at hc
  obtain ⟨x, _, hx⟩ := hc
  rw [← hx]
  split
  · decide
  · rename_i hb
    simpa using hb

/-- Helper: replacement is the identity on strings without invalid characters. -/
theorem replaceInvalidChars_id {s : String}
    (h : ∀ c ∈ s.data, isInvalidChar c = false) : replaceInvalidChars s = s := by
  apply String.ext
  show s.data.map (fun c => if isInvalidChar c then '_' else c) = s.data
  conv_rhs => rw [← List.map_id s.data]
  exact List.map_congr_left fun a ha => by simp [h a ha]

/-- Helper: `stripDotsSpaces` on the character level. -/
theorem stripDotsSpaces_data (s : String) :
    (stripDotsSpaces s).data = stripBoth isStripChar s.data := rfl

/-- Helper: `stripDotsSpaces` is idempotent. -/
theorem stripDotsSpaces_idem (s : String) :
    stripDotsSpaces (stripDotsSpaces s) = stripDotsSpaces s := by
  apply String.ext
  rw [stripDotsSpaces_data, stripDotsSpaces_data]
  exact stripBoth_stripBoth isStripChar s.data

/-- Helper: stripping keeps only characters of the original string. -/
theorem mem_of_mem_stripDotsSpaces {s : String} {c : Char}
    (h : c ∈ (stripDotsSpaces s).data) : c ∈ s.data := by
  rw [stripDotsSpaces_data] at h
  exact mem_of_mem_stripBoth h

/-- Helper: `sanitize_folder_name` is idempotent. -/
theorem sanitize_folder_name_idem (x : String) :
    sanitize_folder_name (sanitize_folder_name x) = sanitize_folder_name x := by
  by_cases h : stripDotsSpaces (replaceInvalidChars x) = ""
  · have hx : sanitize_folder_name x = "Unknown" := by
      unfold sanitize_folder_name
      simp [h]
    rw [hx]
    decide
  · have hx : sanitize_folder_name x = stripDotsSpaces (replaceInvalidChars x) := by
      unfold sanitize_folder_name
      simp [h]
    rw [hx]
    have hnoinv : ∀ c ∈ (stripDotsSpaces (replaceInvalidChars x)).data,
        isInvalidChar c = false :=
      fun c hc => replaceInvalidChars_no_invalid x c (mem_of_mem_stripDotsSpaces hc)
    unfold sanitize_folder_name
    rw [replaceInvalidChars_id hnoinv, stripDotsSpaces_idem]
    simp [h]

/-- Helper: `sanitize_folder_name` never returns the empty string. -/
theorem sanitize_folder_name_ne_empty (x : String) : sanitize_folder_name x ≠ "" := by
  show (if stripDotsSpaces (replaceInvalidChars x) = "" then "Unknown"
    else stripDotsSpaces (replaceInvalidChars x)) ≠ ""
  split
  · decide
  · rename_i h
    exact h

/-- C5: `sanitize_folder_name` is idempotent and never returns the empty string. -/
theorem c5_sanitize_idempotent_nonempty :
    ∀ x : String,
      sanitize_folder_name (sanitize_folder_name x) = sanitize_folder_name x ∧
      sanitize_folder_name x ≠ "" :=
  fun x => ⟨sanitize_folder_name_idem x, sanitize_folder_name_ne_empty x⟩

/-- Helper: `_categorize_labels` computes exactly the per-identifier classification
`specBucket`/`specName`, bucket by bucket, in input order. -/
theorem categorize_eq_bucketNames (m : LabelsMapping) :
    ∀ ids : List String,
      _categorize_labels ids m =
        (bucketNames m ids .userFolder, bucketNames m ids .systemFolder,
         bucketNames m ids .userTag, bucketNames m ids .systemTag,
         bucketNames m ids .unrecognized) := by
  intro ids
  induction ids with
  | nil => simp [_categorize_labels, bucketNames]
  | cons i rest ih =>
    rw [_categorize_labels, ih]
    simp only [bucketNames, List.filter_cons]
    cases hf : dictFind m i with
    | none => simp [specBucket, specName, hf]
    | some info =>
      by_cases h3 : info.type = LABEL_TYPE_FOLDER
      · by_cases hsys : is_system_folder i
        · simp [specBucket, specName, hf, h3, hsys, LABEL_TYPE_TAG, LABEL_TYPE_FOLDER]
        · simp [specBucket, specName, hf, h3, hsys, LABEL_TYPE_TAG, LABEL_TYPE_FOLDER]
      · by_cases h1 : info.type = LABEL_TYPE_TAG
        · by_cases hsys : is_system_folder i
          · simp [specBucket, specName, hf, h3, h1, hsys, LABEL_TYPE_TAG, LABEL_TYPE_FOLDER]
          · simp [specBucket, specName, hf, h3, h1, hsys, LABEL_TYPE_TAG, LABEL_TYPE_FOLDER]
        · simp [specBucket, specName, hf, h3, h1]

/-- Helper: the five buckets partition the input; their sizes add up to the input
length, i.e. every identifier lands in exactly one bucket with exactly one name. -/
theorem bucketNames_length_sum (m : LabelsMapping) :
    ∀ ids : List String,
      (bucketNames m ids .userFolder).length + (bucketNames m ids .systemFolder).length +
        (bucketNames m ids .userTag).length + (bucketNames m ids .systemTag).length +
        (bucketNames m ids .unrecognized).length = ids.length := by
  intro ids
  induction ids with
  | nil => simp [bucketNames]
  | cons i rest ih =>
    cases hb : specBucket m i <;>
      simp only [bucketNames, List.filter_cons, hb, List.length_map, List.length_cons] at ih ⊢ <;>
      simp <;> omega

/-- C2: `_categorize_labels` is exhaustive and order-preserving: each bucket equals
the input filtered to the identifiers classified into that bucket (so relative order
within each bucket follows the input), each identifier contributes exactly one name to
exactly one bucket (the bucket sizes add up to the input length; the contributed name
is `specName`, which synthesizes `Unknown_Label_<id>` for identifiers absent from the
catalog and `<name>_type<code>` for kind codes other than folder and tag), and the
empty input yields five empty buckets. -/
theorem c2_classify_exhaustive_ordered :
    ∀ (ids : List String) (m : LabelsMapping),
      _categorize_labels ids m =
        (bucketNames m ids .userFolder, bucketNames m ids .systemFolder,
         bucketNames m ids .userTag, bucketNames m ids .systemTag,
         bucketNames m ids .unrecognized) ∧
      (bucketNames m ids .userFolder).length + (bucketNames m ids .systemFolder).length +
        (bucketNames m ids .userTag).length + (bucketNames m ids .systemTag).length +
        (bucketNames m ids .unrecognized).length = ids.length ∧
      _categorize_labels [] m = ([], [], [], [], []) :=
  fun ids m =>
    ⟨categorize_eq_bucketNames m ids, bucketNames_length_sum m ids, rfl⟩

/-- Helper: the value of a decimal digit character. -/
theorem digitChar_toNat : ∀ n : Nat, n < 10 → (Nat.digitChar n).toNat = 48 + n := by
  decide

/-- Helper: `natDigs` decodes back to the number it encodes. -/
theorem val10_natDigs (n : Nat) : val10 (natDigs n) = n := by
  induction n using Nat.strong_induction_on with
  | _ n ih =>
    rw [natDigs]
    split
    · rename_i h
      show 10 * 0 + ((Nat.digitChar n).toNat - 48) = n
      rw [digitChar_toNat n h]
      omega
    · rename_i h
      have hlt : n / 10 < n := Nat.div_lt_self (by omega) (by omega)
      unfold val10
      rw [List.foldl_append]
      have := ih (n / 10) hlt
      unfold val10 at this
      rw [this]
      show 10 * (n / 10) + ((Nat.digitChar (n % 10)).toNat - 48) = n
      rw [digitChar_toNat (n % 10) (Nat.mod_lt n (by omega))]
      omega

/-- Helper: `natDigs` is injective. -/
theorem natDigs_injective {a b : Nat} (h : natDigs a = natDigs b) : a = b := by
  have ha := val10_natDigs a
  rw [h, val10_natDigs] at ha
  exact ha.symm

/-- Helper: with enough fuel, `Nat.toDigitsCore` computes `natDigs`. -/
theorem toDigitsCore_eq_natDigs :
    ∀ (fuel n : Nat) (acc : List Char), n < fuel →
      Nat.toDigitsCore 10 fuel n acc = natDigs n ++ acc := by
  intro fuel
  induction fuel with
  | zero => intro n acc h; omega
  | succ fuel ih =>
    intro n acc h
    show (if n / 10 = 0 then Nat.digitChar (n % 10) :: acc
      else Nat.toDigitsCore 10 fuel (n / 10) (Nat.digitChar (n % 10) :: acc)) = natDigs n ++ acc
    by_cases h0 : n / 10 = 0
    · have hn : n < 10 := by omega
      rw [if_pos h0, natDigs]
      rw [dif_pos hn, Nat.mod_eq_of_lt hn]
      rfl
    · have hge : 10 ≤ n := by
        by_contra hc
        exact h0 (Nat.div_eq_of_lt (by omega))
      rw [if_neg h0, ih (n / 10) _ (by omega)]
      conv_rhs => rw [natDigs]
      rw [dif_neg (by omega)]
      simp

/-- Helper: `Nat.repr` renders exactly the decimal digits `natDigs`. -/
theorem repr_data (n : Nat) : (Nat.repr n).data = natDigs n := by
  show (Nat.toDigitsCore 10 (n + 1) n []).asString.data = natDigs n
  rw [toDigitsCore_eq_natDigs (n + 1) n [] (by omega)]
  simp [List.asString]

/-- Helper: `Nat.repr` is injective. -/
theorem natRepr_injective {a b : Nat} (h : Nat.repr a = Nat.repr b) : a = b := by
  have hd : natDigs a = natDigs b := by
    rw [← repr_data, ← repr_data, h]
  exact natDigs_injective hd

/-- Helper: `candidateName` is injective in the counter. -/
theorem candidateName_inj {stem : String} {a b : Nat}
    (h : candidateName stem a = candidateName stem b) : a = b := by
  unfold candidateName at h
  have hd := congrArg String.data h
  simp only [String.data_append, List.append_assoc] at hd
  have h1 := List.append_cancel_left hd
  have h2 := List.append_cancel_left h1
  have h3 := List.append_cancel_right h2
  apply natRepr_injective
  exact String.ext h3

/-- Helper: counting with a strictly weaker predicate that misses a present element. -/
theorem countP_lt_of_missing {α} {l : List α} {P Q : α → Bool} {a : α}
    (ha : a ∈ l) (hPa : P a = true) (hQa : Q a = false)
    (himp : ∀ x, Q x = true → P x = true) : l.countP Q < l.countP P := by
  induction l with
  | nil => cases ha
  | cons x xs ih =>
    rw [List.countP_cons, List.countP_cons]
    rcases List.mem_cons.mp ha with rfl | hmem
    · have hle : xs.countP Q ≤ xs.countP P :=
        List.countP_mono_left (fun x _ hx => himp x hx)
      rw [hPa, hQa, if_pos rfl, if_neg (by simp)]
      omega
    · have hlt := ih hmem
      have hx : (if Q x = true then 1 else 0) ≤ (if P x = true then 1 else 0) := by
        by_cases hq : Q x = true
        · rw [if_pos hq, if_pos (himp x hq)]
        · rw [if_neg hq]
          exact Nat.zero_le _
      omega

/-- Helper: the candidate window starting one step later sits inside the window that
is one candidate wider. -/
theorem mem_candsFrom_succ {stem : String} {x : String} {counter fuel : Nat}
    (h : x ∈ candsFrom stem (counter + 1) fuel) : x ∈ candsFrom stem counter (fuel + 1) := by
  unfold candsFrom at h ⊢
  obtain ⟨i, hi, he⟩ := List.mem_map.mp h
  refine List.mem_map.mpr ⟨i + 1, List.mem_range.mpr ?_, ?_⟩
  · have := List.mem_range.mp hi
    omega
  · rw [show counter + (i + 1) = counter + 1 + i by omega]
    exact he

/-- Helper: full specification of the probing loop of `_generate_unique_filename`:
with the pigeonhole bound satisfied it returns the first collision-free candidate at
an index at least `counter`, having seen every earlier candidate collide. -/
theorem genUniqueAux_spec (existing : List String) (stem : String) :
    ∀ (fuel counter : Nat),
      existing.countP (fun x => decide (x ∈ candsFrom stem counter fuel)) < fuel →
      ∃ j, counter ≤ j ∧
        genUniqueAux existing stem counter fuel = candidateName stem j ∧
        candidateName stem j ∉ existing ∧
        ∀ i, counter ≤ i → i < j → candidateName stem i ∈ existing := by
  intro fuel
  induction fuel with
  | zero => intro counter h; omega
  | succ fuel ih =>
    intro counter h
    by_cases hc : candidateName stem counter ∈ existing
    · rw [genUniqueAux, if_pos hc]
      have hPa : (fun x => decide (x ∈ candsFrom stem counter (fuel + 1)))
          (candidateName stem counter) = true := by
        rw [decide_eq_true_eq]
        unfold candsFrom
        exact List.mem_map.mpr ⟨0, List.mem_range.mpr (by omega), by rw [Nat.add_zero]⟩
      have hQa : (fun x => decide (x ∈ candsFrom stem (counter + 1) fuel))
          (candidateName stem counter) = false := by
        rw [decide_eq_false_iff_not]
        intro hx
        unfold candsFrom at hx
        obtain ⟨i, _, he⟩ := List.mem_map.mp hx
        have := candidateName_inj he
        omega
      have hQP : ∀ x, (fun x => decide (x ∈ candsFrom stem (counter + 1) fuel)) x = true →
          (fun x => decide (x ∈ candsFrom stem counter (fuel + 1))) x = true := by
        intro x hx
        rw [decide_eq_true_eq] at hx ⊢
        exact mem_candsFrom_succ hx
      have hlt := countP_lt_of_missing hc hPa hQa hQP
      have hbound :
          existing.countP (fun x => decide (x ∈ candsFrom stem (counter + 1) fuel)) < fuel := by
        omega
      obtain ⟨j, hj1, hj2, hj3, hj4⟩ := ih (counter + 1) hbound
      refine ⟨j, by omega, hj2, hj3, fun i hi1 hi2 => ?_⟩
      rcases Nat.eq_or_lt_of_le hi1 with rfl | hgt
      · exact hc
      · exact hj4 i (by omega) hi2
    · rw [genUniqueAux, if_neg hc]
      exact ⟨counter, Nat.le_refl _, rfl, hc, fun i hi1 hi2 => by omega⟩

/-- Helper: the name resolved by `_generate_unique_filename` never collides with the
directory contents, i.e. the while-loop terminates with a fresh name. -/
theorem generate_unique_not_mem (existing : List String) (name : String) :
    _generate_unique_filename existing name ∉ existing := by
  unfold _generate_unique_filename
  split
  · have hb : existing.countP
        (fun x => decide (x ∈ candsFrom (pathStem name) 1 (existing.length + 1))) <
        existing.length + 1 :=
      Nat.lt_succ_of_le (List.countP_le_length _)
    obtain ⟨j, _, hj2, hj3, _⟩ :=
      genUniqueAux_spec existing (pathStem name) (existing.length + 1) 1 hb
    rw [hj2]
    exact hj3
  · rename_i h
    exact h

/-- Helper: for a non-empty stem, the stem of `s ++ ".eml"` is `s`: the appended dot
is the last dot, it is not at index 0, and characters follow it. -/
theorem pathStem_append_eml {s : String} (hs : s ≠ "") : pathStem (s ++ ".eml") = s := by
  have hnil : s.data ≠ [] := fun hh => hs (String.ext hh)
  have h1 : (s ++ ".eml").data.reverse = 'l' :: 'm' :: 'e' :: '.' :: s.data.reverse := by
    rw [String.data_append]
    rw [show (".eml").data = ['.', 'e', 'm', 'l'] from rfl, List.reverse_append]
    rfl
  have h2 : (s ++ ".eml").data.reverse.dropWhile (fun c => c != '.') = '.' :: s.data.reverse := by
    rw [h1, List.dropWhile_cons_of_pos (by decide), List.dropWhile_cons_of_pos (by decide),
      List.dropWhile_cons_of_pos (by decide), List.dropWhile_cons_of_neg (by decide)]
  have h3 : (s ++ ".eml").data.reverse.takeWhile (fun c => c != '.') = ['l', 'm', 'e'] := by
    rw [h1, List.takeWhile_cons_of_pos (by decide), List.takeWhile_cons_of_pos (by decide),
      List.takeWhile_cons_of_pos (by decide), List.takeWhile_cons_of_neg (by decide)]
  have h4 : s.data.reverse.isEmpty = false := by
    cases hrev : s.data.reverse with
    | nil => exact absurd (by simpa using hrev) hnil
    | cons a t => rfl
  unfold pathStem
  rw [h2, h3]
  simp only [h4, List.isEmpty_cons, Bool.or_false, Bool.false_or]
  rw [if_neg (by simp), List.reverse_reverse]

/-- C8 (amended): for `.eml` source names the resolver returns the name itself when it
is free, and otherwise the first free `stem_k.eml` with `k` counting up from 1, every
earlier suffixed candidate being taken — and the loop terminates: the result never
collides with the directory contents. The spec's concrete example holds: with
`test.eml` and `test_1.eml` present, `test.eml` resolves to `test_2.eml`. -/
theorem c8_resolve_collision_eml (existing : List String) (s : String) (hs : s ≠ "") :
    _generate_unique_filename existing (s ++ ".eml") ∉ existing ∧
    ((s ++ ".eml") ∉ existing →
      _generate_unique_filename existing (s ++ ".eml") = s ++ ".eml") ∧
    ((s ++ ".eml") ∈ existing →
      ∃ k, 1 ≤ k ∧
        _generate_unique_filename existing (s ++ ".eml") = s ++ "_" ++ Nat.repr k ++ ".eml" ∧
        ∀ i, 1 ≤ i → i < k → (s ++ "_" ++ Nat.repr i ++ ".eml") ∈ existing) ∧
    _generate_unique_filename ["test.eml", "test_1.eml"] "test.eml" = "test_2.eml" := by
  refine ⟨generate_unique_not_mem existing (s ++ ".eml"), fun hfree => ?_, fun htaken => ?_,
    by decide⟩
  · unfold _generate_unique_filename
    rw [if_neg hfree]
  · unfold _generate_unique_filename
    rw [if_pos htaken, pathStem_append_eml hs]
    have hb : existing.countP
        (fun x => decide (x ∈ candsFrom s 1 (existing.length + 1))) <
        existing.length + 1 :=
      Nat.lt_succ_of_le (List.countP_le_length _)
    obtain ⟨j, hj1, hj2, _, hj4⟩ := genUniqueAux_spec existing s (existing.length + 1) 1 hb
    exact ⟨j, hj1, hj2, fun i hi1 hi2 => hj4 i hi1 hi2⟩

/-- Witness for C8 at a concrete input. -/
theorem c8_resolve_collision_eml_witness :
    _generate_unique_filename ["test.eml", "test_1.eml"] ("test" ++ ".eml") ∉
      ["test.eml", "test_1.eml"] :=
  (c8_resolve_collision_eml ["test.eml", "test_1.eml"] "test" (by decide)).1

/-- Counterexample for C8 as stated: for a non-`.eml` source name the suffix is not
inserted before the original extension; the code hard-codes `.eml`. Resolving
`test.txt` against an existing `test.txt` yields `test_1.eml`, not `test_1.txt`. -/
theorem c8_counterexample :
    _generate_unique_filename ["test.txt"] "test.txt" = "test_1.eml" ∧
    _generate_unique_filename ["test.txt"] "test.txt" ≠ "test_1.txt" := by
  constructor
  · decide
  · decide

/-- Helper: with the output directory pre-existing, a non-preview run fails with no
output, whatever else the world holds. -/
theorem organize_fails_when_organized_exists (w : World) (h : w.organizedExists = true) :
    organize_emails w false = ⟨false, 0, 0, [], true⟩ := by
  unfold organize_emails
  cases he : w.exportExists with
  | false => simp [he, h]
  | true =>
    cases hl : load_labels_mapping w.labelsData with
    | none => simp [he, hl, h]
    | some m => simp [he, hl, h]

/-- Helper: a successful non-preview run leaves the output directory in existence. -/
theorem organize_success_creates (w : World)
    (h : (organize_emails w false).success = true) :
    (organize_emails w false).organizedExistsAfter = true := by
  unfold organize_emails at h ⊢
  cases he : w.exportExists with
  | false => rw [he] at h; simp at h
  | true =>
    cases hl : load_labels_mapping w.labelsData with
    | none => rw [he, hl] at h; simp at h
    | some m =>
      rw [he, hl] at h
      by_cases ho : w.organizedExists
      · simp [ho] at h
      · by_cases hm : w.messages.isEmpty
        · simp [ho, hm] at h
        · simp [ho, hm]

/-- C7: (a) a pre-existing `organized_emails` makes every non-preview run fail with
zero counters and no placements, before producing any output, and `main` exits with
code 1; (b) in preview mode the refusal is bypassed: the observable outcome does not
depend on the pre-existence flag; (c) after a successful non-preview run the
directory exists, so an immediate second non-preview run on the resulting state fails
and exits 1. -/
theorem c7_output_dir_refusal :
    (∀ w : World, w.organizedExists = true →
      organize_emails w false = ⟨false, 0, 0, [], true⟩ ∧ mainExitCode w false = 1) ∧
    (∀ (w : World) (b₁ b₂ : Bool),
      (organize_emails { w with organizedExists := b₁ } true).success =
        (organize_emails { w with organizedExists := b₂ } true).success ∧
      (organize_emails { w with organizedExists := b₁ } true).processed =
        (organize_emails { w with organizedExists := b₂ } true).processed ∧
      (organize_emails { w with organizedExists := b₁ } true).errors =
        (organize_emails { w with organizedExists := b₂ } true).errors ∧
      (organize_emails { w with organizedExists := b₁ } true).placements =
        (organize_emails { w with organizedExists := b₂ } true).placements) ∧
    (∀ w w₂ : World, (organize_emails w false).success = true →
      w₂.organizedExists = (organize_emails w false).organizedExistsAfter →
      (organize_emails w₂ false).success = false ∧ mainExitCode w₂ false = 1) := by
  have hfail : ∀ w : World, w.organizedExists = true →
      organize_emails w false = ⟨false, 0, 0, [], true⟩ ∧ mainExitCode w false = 1 := by
    intro w h
    have := organize_fails_when_organized_exists w h
    refine ⟨this, ?_⟩
    unfold mainExitCode
    rw [this]
    rfl
  have hdry : ∀ (w : World) (b : Bool),
      organize_emails { w with organizedExists := b } true =
        { organize_emails { w with organizedExists := false } true with
            organizedExistsAfter := b } := by
    intro w b
    unfold organize_emails
    cases he : w.exportExists with
    | false => simp [he]
    | true =>
      cases hl : load_labels_mapping w.labelsData with
      | none => simp [he, hl]
      | some m =>
        by_cases hm : w.messages.isEmpty
        · simp [he, hl, hm]
        · simp [he, hl, hm]
  refine ⟨hfail, fun w b₁ b₂ => ?_, fun w w₂ h1 h2 => ?_⟩
  · rw [hdry w b₁, hdry w b₂]
    exact ⟨rfl, rfl, rfl, rfl⟩
  · have h3 : w₂.organizedExists = true := by
      rw [h2]
      exact organize_success_creates w h1
    have h4 := hfail w₂ h3
    rw [h4.1]
    exact ⟨rfl, h4.2⟩

/-- Witness for C7 at a concrete world. -/
theorem c7_output_dir_refusal_witness :
    organize_emails previewWorld false = ⟨false, 0, 0, [], true⟩ ∧
    mainExitCode previewWorld false = 1 :=
  c7_output_dir_refusal.1 previewWorld rfl

/-- Helper: a processed message appends exactly its resolved placement; the directory
state grows by that placement exactly when the copy happens; the counters move by the
branch taken. -/
theorem processMessage_step (dry : Bool) (m : LabelsMapping) (st : LoopState)
    (msg : Message) (h : msg.emlExists = true) :
    (processMessage dry m st msg).placements =
      st.placements ++ [resolvedPlacement m st msg] ∧
    (processMessage dry m st msg).fs =
      (if dry = false ∧ msg.copyOk = true then st.fs ++ [resolvedPlacement m st msg]
       else st.fs) ∧
    (processMessage dry m st msg).processed =
      (if dry = true ∨ msg.copyOk = true then st.processed + 1 else st.processed) ∧
    (processMessage dry m st msg).errors =
      (if dry = false ∧ msg.copyOk = false then st.errors + 1 else st.errors) := by
  unfold processMessage
  rw [h]
  cases dry with
  | true => simp
  | false =>
    cases hk : msg.copyOk with
    | true => simp [hk]
    | false => simp [hk]

/-- Helper: the folder of the resolved placement is the single element returned by
`get_email_labels`. -/
theorem resolvedPlacement_eq (m : LabelsMapping) (st : LoopState) (msg : Message)
    (x : String) (hx : get_email_labels msg.content m = [x]) :
    resolvedPlacement m st msg =
      (x, _generate_unique_filename (filesInFolder st.fs x) msg.name) := by
  unfold resolvedPlacement
  rw [hx]
  rfl

/-- Helper: every branch of a non-skipped message appends exactly one placement,
whose folder is the single element returned by `get_email_labels`. -/
theorem processMessage_placement (dry : Bool) (m : LabelsMapping) (st : LoopState)
    (msg : Message) (x : String) (he : msg.emlExists = true)
    (hx : get_email_labels msg.content m = [x]) :
    (processMessage dry m st msg).placements =
      st.placements ++ [(x, _generate_unique_filename (filesInFolder st.fs x) msg.name)] := by
  rw [(processMessage_step dry m st msg he).1, resolvedPlacement_eq m st msg x hx]

/-- C3 (amended): a message whose metadata cannot be parsed is neither skipped nor
counted as an error: it is routed to the literal folder `Invalid_JSON`; with a
successful copy (or in preview mode) it is counted as processed with the error
counter unchanged, and the loop continues with the remaining messages. -/
theorem c3_invalid_json_routed (dry : Bool) (m : LabelsMapping) (st : LoopState)
    (msg : Message) (rest : List Message)
    (hc : msg.content = .decodeError) (he : msg.emlExists = true)
    (hk : dry = true ∨ msg.copyOk = true) :
    runLoop dry m st (msg :: rest) = runLoop dry m (processMessage dry m st msg) rest ∧
    (processMessage dry m st msg).errors = st.errors ∧
    (processMessage dry m st msg).processed = st.processed + 1 ∧
    (processMessage dry m st msg).placements =
      st.placements ++ [("Invalid_JSON",
        _generate_unique_filename (filesInFolder st.fs "Invalid_JSON") msg.name)] := by
  have hx : get_email_labels msg.content m = ["Invalid_JSON"] := by rw [hc]; rfl
  obtain ⟨-, -, hproc, herr⟩ := processMessage_step dry m st msg he
  refine ⟨rfl, ?_, ?_, processMessage_placement dry m st msg "Invalid_JSON" he hx⟩
  · rw [herr]
    rcases hk with rfl | hk
    · simp
    · simp [hk]
  · rw [hproc]
    rcases hk with rfl | hk
    · simp
    · simp [hk]

/-- Counterexample for C3 as stated: a run over one message with unparseable metadata
ends with the error counter at 0, the message counted as processed, and the file
copied into the `Invalid_JSON` destination folder — it is neither skipped nor counted
as an error. -/
theorem c3_counterexample :
    (organize_emails invalidJsonWorld false).errors = 0 ∧
    (organize_emails invalidJsonWorld false).processed = 1 ∧
    (organize_emails invalidJsonWorld false).placements = [("Invalid_JSON", "a.eml")] ∧
    (organize_emails invalidJsonWorld false).success = true := by
  exact ⟨by decide, by decide, by decide, by decide⟩

/-- Witness for C3's amended theorem at a concrete input. -/
theorem c3_invalid_json_routed_witness :
    (processMessage false [] ⟨0, 0, [], []⟩ ⟨"a.eml", true, .decodeError, true⟩).errors = 0 ∧
    (processMessage false [] ⟨0, 0, [], []⟩ ⟨"a.eml", true, .decodeError, true⟩).processed = 1 :=
  ⟨((c3_invalid_json_routed false [] ⟨0, 0, [], []⟩ ⟨"a.eml", true, .decodeError, true⟩ []
      rfl rfl (Or.inr rfl)).2.1),
   ((c3_invalid_json_routed false [] ⟨0, 0, [], []⟩ ⟨"a.eml", true, .decodeError, true⟩ []
      rfl rfl (Or.inr rfl)).2.2.1)⟩

/-- Helper: names present in a folder all come from the directory state. -/
theorem mem_filesInFolder {fs : List (String × String)} {folder x : String}
    (h : x ∈ filesInFolder fs folder) : ∃ p ∈ fs, p.2 = x := by
  unfold filesInFolder at h
  obtain ⟨p, hp, he⟩ := List.mem_map.mp h
  exact ⟨p, (List.mem_filter.mp hp).1, he⟩

/-- Helper: skipping a message with a missing EML file only bumps the error count. -/
theorem processMessage_skip (dry : Bool) (m : LabelsMapping) (st : LoopState)
    (msg : Message) (h : msg.emlExists = false) :
    processMessage dry m st msg = { st with errors := st.errors + 1 } := by
  unfold processMessage
  rw [h]
  rfl

/-- Helper: when the message's own name is absent from `done` and the folder's files
all lie in `done`, the resolver keeps the name unchanged. -/
theorem resolvedPlacement_snd_of_fresh (m : LabelsMapping) (st : LoopState)
    (msg : Message) {done : List String} (hfs : ∀ p ∈ st.fs, p.2 ∈ done)
    (hnotdone : msg.name ∉ done) : (resolvedPlacement m st msg).2 = msg.name := by
  show _generate_unique_filename
    (filesInFolder st.fs ((get_email_labels msg.content m).headD "")) msg.name = msg.name
  unfold _generate_unique_filename
  rw [if_neg]
  intro hmem
  obtain ⟨p, hp, hpe⟩ := mem_filesInFolder hmem
  exact hnotdone (hpe ▸ hfs p hp)

/-- Helper invariant of the normal-mode message loop: if every file name in the
directory state lies in `done`, the resolved names so far form a sublist of `done`,
and `done` together with the upcoming message names has no duplicates, then at the
end the resolved names form a sublist of `done ++` the message names (each message
resolving to its own fresh name), and the directory state stays inside that list. -/
theorem runLoop_placements_sublist (m : LabelsMapping) :
    ∀ (msgs : List Message) (st : LoopState) (done : List String),
      (∀ p ∈ st.fs, p.2 ∈ done) →
      (st.placements.map Prod.snd).Sublist done →
      (done ++ msgs.map Message.name).Nodup →
      ((runLoop false m st msgs).placements.map Prod.snd).Sublist
          (done ++ msgs.map Message.name) ∧
      (∀ p ∈ (runLoop false m st msgs).fs, p.2 ∈ done ++ msgs.map Message.name) := by
  intro msgs
  induction msgs with
  | nil =>
    intro st done hfs hpl _
    simp only [runLoop, List.map_nil, List.append_nil]
    exact ⟨hpl, hfs⟩
  | cons msg rest ih =>
    intro st done hfs hpl hnd
    have hnotdone : msg.name ∉ done := by
      intro hmem
      have := List.disjoint_of_nodup_append hnd hmem
      simp at this
    have hassoc : done ++ (msg :: rest).map Message.name =
        (done ++ [msg.name]) ++ rest.map Message.name := by
      simp
    rw [runLoop, hassoc]
    have hnd' : ((done ++ [msg.name]) ++ rest.map Message.name).Nodup := by
      rw [← hassoc]
      exact hnd
    have hdone' : ∀ a ∈ done, a ∈ done ++ [msg.name] := fun a ha => by simp [ha]
    have hkey : (∀ p ∈ (processMessage false m st msg).fs, p.2 ∈ done ++ [msg.name]) ∧
        ((processMessage false m st msg).placements.map Prod.snd).Sublist
          (done ++ [msg.name]) := by
      cases heml : msg.emlExists with
      | false =>
        rw [processMessage_skip false m st msg heml]
        exact ⟨fun p hp => hdone' p.2 (hfs p hp),
          hpl.trans (List.sublist_append_left done [msg.name])⟩
      | true =>
        obtain ⟨hp1, hp2, -, -⟩ := processMessage_step false m st msg heml
        have hsnd := resolvedPlacement_snd_of_fresh m st msg hfs hnotdone
        constructor
        · intro p hp
          rw [hp2] at hp
          by_cases hk : msg.copyOk = true
          · rw [if_pos ⟨rfl, hk⟩] at hp
            rcases List.mem_append.mp hp with hp | hp
            · exact hdone' p.2 (hfs p hp)
            · have : p = resolvedPlacement m st msg := by simpa using hp
              rw [this, hsnd]
              simp
          · rw [if_neg (fun hc => hk hc.2)] at hp
            exact hdone' p.2 (hfs p hp)
        · rw [hp1, List.map_append]
          have : [resolvedPlacement m st msg].map Prod.snd = [msg.name] := by
            simp [hsnd]
          rw [this]
          exact hpl.append (List.Sublist.refl _)
    exact ih (processMessage false m st msg) (done ++ [msg.name]) hkey.1 hkey.2 hnd'

/-- C6 (amended): in a normal-mode run — where the output directory is fresh, the
source EML names are pairwise distinct (they live in one export directory), and each
successful copy makes the resolved path exist for later collision checks — no two
placements resolve to the same destination path, whatever the per-message copy
outcomes. In preview mode the invariant can fail when the output directory
pre-exists (see the counterexample). -/
theorem c6_no_placement_collision_normal (w : World)
    (hnames : (w.messages.map Message.name).Nodup)
    (hfresh : w.organizedFiles = []) :
    (organize_emails w false).placements.Nodup := by
  unfold organize_emails
  cases he : w.exportExists with
  | false => simp
  | true =>
    cases hl : load_labels_mapping w.labelsData with
    | none => simp
    | some m =>
      by_cases ho : w.organizedExists
      · simp [ho]
      · by_cases hm : w.messages.isEmpty
        · simp [ho, hm]
        · simp only [ho, hm, Bool.not_true, Bool.false_eq_true, if_false, Bool.and_false,
            Bool.false_and, Bool.not_false, Bool.and_true]
          have hstart : ∀ p ∈ (⟨0, 0, w.organizedFiles, []⟩ : LoopState).fs,
              p.2 ∈ ([] : List String) := by
            intro p hp
            rw [hfresh] at hp
            cases hp
          have hsub := runLoop_placements_sublist m w.messages
            ⟨0, 0, w.organizedFiles, []⟩ [] hstart (by simp) (by simpa using hnames)
          have hnodup : ((runLoop false m ⟨0, 0, w.organizedFiles, []⟩ w.messages).placements.map
              Prod.snd).Nodup :=
            hsub.1.nodup (by simpa using hnames)
          exact List.Nodup.of_map Prod.snd hnodup

/-- Counterexample for C6 as stated: in preview mode with a pre-existing output
directory already holding `F/a.eml`, the two distinct sources `a.eml` and `a_1.eml`
both resolve to the destination `F/a_1.eml`. -/
theorem c6_preview_counterexample :
    (organize_emails previewWorld true).placements = [("F", "a_1.eml"), ("F", "a_1.eml")] ∧
    ¬ (organize_emails previewWorld true).placements.Nodup := by
  constructor
  · decide
  · decide

/-- Witness for C6's amended theorem at a concrete world. -/
theorem c6_no_placement_collision_normal_witness :
    (organize_emails invalidJsonWorld false).placements.Nodup :=
  c6_no_placement_collision_normal invalidJsonWorld (by decide) rfl

/-- Helper: appending a non-empty string on the right gives a non-empty string. -/
theorem append_ne_empty_right {a b : String} (hb : b ≠ "") : a ++ b ≠ "" := by
  intro h
  apply hb
  have hd := congrArg String.data h
  rw [String.data_append] at hd
  exact String.ext ((List.append_eq_nil.mp hd).2)

/-- Helper: appending to a non-empty string on the left gives a non-empty string. -/
theorem append_ne_empty_left {a b : String} (ha : a ≠ "") : a ++ b ≠ "" := by
  intro h
  apply ha
  have hd := congrArg String.data h
  rw [String.data_append] at hd
  exact String.ext ((List.append_eq_nil.mp hd).1)

/-- Helper: every name contributed by the classifier is non-empty, as long as the
catalog's display names are (which they are: the loader sanitizes them). -/
theorem specName_ne_empty {m : LabelsMapping} (h : ∀ p ∈ m, p.2.name ≠ "")
    (i : String) : specName m i ≠ "" := by
  unfold specName
  cases hf : dictFind m i with
  | none =>
    show ("Unknown_Label_" ++ i) ≠ ""
    exact append_ne_empty_left (by decide)
  | some info =>
    have hmem : ∃ p ∈ m, p.2 = info := by
      unfold dictFind at hf
      cases hfind : m.find? (fun p => p.1 == i) with
      | none => rw [hfind] at hf; simp at hf
      | some p =>
        rw [hfind] at hf
        simp at hf
        exact ⟨p, List.mem_of_find?_eq_some hfind, hf⟩
    obtain ⟨p, hp, hpe⟩ := hmem
    have hname : info.name ≠ "" := hpe ▸ h p hp
    show (if info.type = LABEL_TYPE_FOLDER then info.name
      else if info.type = LABEL_TYPE_TAG then info.name
      else info.name ++ "_type" ++ info.type.repr) ≠ ""
    split
    · exact hname
    · split
      · exact hname
      · exact append_ne_empty_left (append_ne_empty_right (by decide))

/-- Helper: bucket entries are non-empty names. -/
theorem mem_bucketNames_ne_empty {m : LabelsMapping} (h : ∀ p ∈ m, p.2.name ≠ "")
    {ids : List String} {b : Bucket} {x : String} (hx : x ∈ bucketNames m ids b) :
    x ≠ "" := by
  unfold bucketNames at hx
  obtain ⟨i, _, he⟩ := List.mem_map.mp hx
  rw [← he]
  exact specName_ne_empty h i

/-- C10: for every metadata parse outcome, `get_email_labels` returns a one-element
list with a non-empty entry (given a catalog of non-empty display names, as the
loader guarantees): `Invalid_JSON` on a JSON decode error, `Error` on any other
exception, `Unlabeled` when the label list is absent or empty, and otherwise the
selector's choice over the classified buckets; the orchestrator always places the
message into exactly that single element. -/
theorem c10_single_folder (f : EmailFile) (m : LabelsMapping)
    (h : ∀ p ∈ m, p.2.name ≠ "") :
    ∃ x, get_email_labels f m = [x] ∧ x ≠ "" ∧
      (f = .decodeError → x = "Invalid_JSON") ∧
      (f = .otherError → x = "Error") ∧
      (∀ d, f = .ok d → (_extract_label_ids_from_email d = none ∨
          _extract_label_ids_from_email d = some []) → x = "Unlabeled") ∧
      (∀ d ids, f = .ok d → _extract_label_ids_from_email d = some ids → ids ≠ [] →
        x = _select_target_folder (bucketNames m ids .userFolder)
              (bucketNames m ids .systemFolder) (bucketNames m ids .userTag)
              (bucketNames m ids .systemTag) (bucketNames m ids .unrecognized)) ∧
      (∀ (dry : Bool) (st : LoopState) (msg : Message), msg.emlExists = true →
        msg.content = f →
        (processMessage dry m st msg).placements =
          st.placements ++
            [(x, _generate_unique_filename (filesInFolder st.fs x) msg.name)]) := by
  cases f with
  | decodeError =>
    refine ⟨"Invalid_JSON", rfl, by decide, fun _ => rfl, ?_, ?_, ?_, ?_⟩
    · intro hco
      exact EmailFile.noConfusion hco
    · intro d hd _
      exact EmailFile.noConfusion hd
    · intro d ids hd _ _
      exact EmailFile.noConfusion hd
    · intro dry st msg he hc
      exact processMessage_placement dry m st msg "Invalid_JSON" he (by rw [hc]; rfl)
  | otherError =>
    refine ⟨"Error", rfl, by decide, ?_, fun _ => rfl, ?_, ?_, ?_⟩
    · intro hco
      exact EmailFile.noConfusion hco
    · intro d hd _
      exact EmailFile.noConfusion hd
    · intro d ids hd _ _
      exact EmailFile.noConfusion hd
    · intro dry st msg he hc
      exact processMessage_placement dry m st msg "Error" he (by rw [hc]; rfl)
  | ok d =>
    cases hex : _extract_label_ids_from_email d with
    | none =>
      have hget : get_email_labels (.ok d) m = ["Unlabeled"] := by
        simp only [get_email_labels, hex]
      refine ⟨"Unlabeled", hget, by decide, ?_, ?_, fun d' hd' _ => rfl, ?_, ?_⟩
      · intro hco
        exact EmailFile.noConfusion hco
      · intro hco
        exact EmailFile.noConfusion hco
      · intro d' ids hd' hsome hne
        cases hd'
        rw [hex] at hsome
        exact Option.noConfusion hsome
      · intro dry st msg he hc
        exact processMessage_placement dry m st msg "Unlabeled" he (by rw [hc]; exact hget)
    | some ids0 =>
      cases ids0 with
      | nil =>
        have hget : get_email_labels (.ok d) m = ["Unlabeled"] := by
          simp only [get_email_labels, hex]
        refine ⟨"Unlabeled", hget, by decide, ?_, ?_, fun d' hd' _ => rfl, ?_, ?_⟩
        · intro hco
          exact EmailFile.noConfusion hco
        · intro hco
          exact EmailFile.noConfusion hco
        · intro d' ids hd' hsome hne
          cases hd'
          rw [hex] at hsome
          injection hsome with hsome
          exact absurd hsome.symm hne
        · intro dry st msg he hc
          exact processMessage_placement dry m st msg "Unlabeled" he (by rw [hc]; exact hget)
      | cons i rest =>
        have hget : get_email_labels (.ok d) m =
            [_select_target_folder (bucketNames m (i :: rest) .userFolder)
              (bucketNames m (i :: rest) .systemFolder) (bucketNames m (i :: rest) .userTag)
              (bucketNames m (i :: rest) .systemTag)
              (bucketNames m (i :: rest) .unrecognized)] := by
          simp only [get_email_labels, hex, categorize_eq_bucketNames]
        have hne : _select_target_folder (bucketNames m (i :: rest) .userFolder)
            (bucketNames m (i :: rest) .systemFolder) (bucketNames m (i :: rest) .userTag)
            (bucketNames m (i :: rest) .systemTag)
            (bucketNames m (i :: rest) .unrecognized) ≠ "" := by
          apply select_ne_empty_of
          intro y hy
          rcases List.mem_append.mp hy with hy | hy
          · rcases List.mem_append.mp hy with hy | hy
            · rcases List.mem_append.mp hy with hy | hy
              · rcases List.mem_append.mp hy with hy | hy
                · exact mem_bucketNames_ne_empty h hy
                · exact mem_bucketNames_ne_empty h hy
              · exact mem_bucketNames_ne_empty h hy
            · exact mem_bucketNames_ne_empty h hy
          · exact mem_bucketNames_ne_empty h hy
        refine ⟨_, hget, hne, ?_, ?_, ?_, ?_, ?_⟩
        · intro hco
          exact EmailFile.noConfusion hco
        · intro hco
          exact EmailFile.noConfusion hco
        · intro d' hd' hopt
          cases hd'
          rcases hopt with hopt | hopt <;> rw [hex] at hopt
          · exact Option.noConfusion hopt
          · injection hopt with hopt
            exact List.noConfusion hopt
        · intro d' ids hd' hsome _
          cases hd'
          rw [hex] at hsome
          injection hsome with hsome
          rw [← hsome]
        · intro dry st msg he hc
          exact processMessage_placement dry m st msg _ he (by rw [hc]; exact hget)

/-- Witness for C10 at a concrete parse outcome and catalog. -/
theorem c10_single_folder_witness :
    ∃ x, get_email_labels .decodeError [("1", ⟨"Inbox", 3⟩)] = [x] ∧ x ≠ "" ∧
      (EmailFile.decodeError = .decodeError → x = "Invalid_JSON") ∧
      (EmailFile.decodeError = .otherError → x = "Error") ∧
      (∀ d, EmailFile.decodeError = .ok d → (_extract_label_ids_from_email d = none ∨
          _extract_label_ids_from_email d = some []) → x = "Unlabeled") ∧
      (∀ d ids, EmailFile.decodeError = .ok d →
        _extract_label_ids_from_email d = some ids → ids ≠ [] →
        x = _select_target_folder (bucketNames [("1", ⟨"Inbox", 3⟩)] ids .userFolder)
              (bucketNames [("1", ⟨"Inbox", 3⟩)] ids .systemFolder)
              (bucketNames [("1", ⟨"Inbox", 3⟩)] ids .userTag)
              (bucketNames [("1", ⟨"Inbox", 3⟩)] ids .systemTag)
              (bucketNames [("1", ⟨"Inbox", 3⟩)] ids .unrecognized)) ∧
      (∀ (dry : Bool) (st : LoopState) (msg : Message), msg.emlExists = true →
        msg.content = .decodeError →
        (processMessage dry [("1", ⟨"Inbox", 3⟩)] st msg).placements =
          st.placements ++
            [(x, _generate_unique_filename (filesInFolder st.fs x) msg.name)]) :=
  c10_single_folder .decodeError [("1", ⟨"Inbox", 3⟩)] (by decide)

end ProtonEmlOrganizer
